import Mathlib

/-!
Verification of the production/inventory core of `raw_materials_manager.py`.

The program stores its state in four sqlite tables (`ingredients`, `products`,
`product_ingredients`, `productions`).  We embed the tables as Lean lists and
each core operation as a pure function on a `Store` record:

* `add_ingredient`      — `StockFrame.add_ingredient` (INSERT, IntegrityError on
  duplicate `name`; sqlite's `UNIQUE` constraint on `name` uses the default
  BINARY collation, i.e. an exact, case-sensitive comparison),
* `restock_ingredient`  — `StockFrame.restock_selected`,
* `delete_ingredient`   — `StockFrame.delete_selected`,
* `save_product`        — `ProductEditor.on_save` (insert branch for
  `product_id = none`, replace-all branch otherwise),
* `delete_product`      — `ProductsFrame.delete_product`,
* `check_requirements`  — `ProductionFrame.check_requirements`,
* `confirm_production`  — `ProductionFrame.confirm_production` (after the
  product-name lookup resolved the product id and name),
* `delete_production`   — `ProductionFrame.delete_production`.

Python floats are embedded as rationals (`ℚ`); the tolerance `1e-9` used by the
sufficiency checks becomes `eps = 1/10^9`.  Row ids handed out by sqlite
(`INTEGER PRIMARY KEY` rowids) are embedded as explicit fresh-id counters.
-/

/-- Tolerance used by the sufficiency checks (`1e-9` in the source). -/
def eps : ℚ := 1 / 1000000000

/-- Row of the `ingredients` table. -/
structure Ingredient where
  name : String
  qty_kg : ℚ
  supplier : String
deriving DecidableEq

/-- Row of the `product_ingredients` (formula) table. -/
structure FormulaRow where
  product_id : ℕ
  ingredient_name : String
  percentage : ℚ
deriving DecidableEq

/-- Row of the `productions` (history) table. -/
structure Production where
  id : ℕ
  product_id : ℕ
  product_name : String
  kilos_produced : ℚ
  produced_at : String
  batch_number : String
deriving DecidableEq

/-- The persistent store: the four tables of `init_db`, plus the fresh-id
counters standing for sqlite's rowid allocation. -/
structure Store where
  ingredients : List Ingredient
  products : List (ℕ × String)
  product_ingredients : List FormulaRow
  productions : List Production
  nextProductId : ℕ
  nextProductionId : ℕ
deriving DecidableEq

/-- A freshly created database (`init_db` on a new file); sqlite rowids start
at 1. -/
def emptyStore : Store :=
  { ingredients := [], products := [], product_ingredients := [],
    productions := [], nextProductId := 1, nextProductionId := 1 }

/-- Quantity on hand of an ingredient, as read by
`SELECT qty_kg FROM ingredients WHERE name=?` (`row[0] if row else 0.0`):
first matching row, missing ingredient read as zero. -/
def availQ (l : List Ingredient) (ing : String) : ℚ :=
  match l.find? (fun r => r.name = ing) with
  | some r => r.qty_kg
  | none => 0

/-- `available(ingredientName)` on the store. -/
def availableQty (s : Store) (ing : String) : ℚ :=
  availQ s.ingredients ing

/-- Ledger credit:
`UPDATE ingredients SET qty_kg = qty_kg + ? WHERE name=?` (unconditional
addition on every matching row; no matching row means no change). -/
def credit (l : List Ingredient) (ing : String) (amt : ℚ) : List Ingredient :=
  l.map (fun r => if r.name = ing then { r with qty_kg := r.qty_kg + amt } else r)

/-- Ledger debit:
`UPDATE ingredients SET qty_kg = qty_kg - ? WHERE name=?` (unconditional
subtraction; the ledger itself never rejects a negative result). -/
def debit (l : List Ingredient) (ing : String) (amt : ℚ) : List Ingredient :=
  l.map (fun r => if r.name = ing then { r with qty_kg := r.qty_kg - amt } else r)

/-- Outcome of `StockFrame.add_ingredient`. -/
inductive AddOutcome where
  | duplicateKey
  | added
deriving DecidableEq

/-- `StockFrame.add_ingredient`: `INSERT INTO ingredients(name, qty_kg,
supplier)`; sqlite raises `IntegrityError` (DuplicateKey) exactly when a row
with the same `name` (BINARY collation: exact string equality) already exists,
and then nothing is inserted. -/
def add_ingredient (s : Store) (name : String) (qty : ℚ) (supplier : String) :
    Store × AddOutcome :=
  if s.ingredients.any (fun r => r.name = name) then
    (s, .duplicateKey)
  else
    ({ s with ingredients := s.ingredients ++ [⟨name, qty, supplier⟩] }, .added)

/-- `StockFrame.restock_selected`:
`UPDATE ingredients SET qty_kg = qty_kg + ? WHERE name = ?` (the dialog only
produces amounts `≥ 0`, enforced by `minvalue=0.0`). -/
def restock_ingredient (s : Store) (name : String) (amt : ℚ) : Store :=
  { s with ingredients := credit s.ingredients name amt }

/-- `StockFrame.delete_selected`: `DELETE FROM ingredients WHERE name=?`. -/
def delete_ingredient (s : Store) (name : String) : Store :=
  { s with ingredients := s.ingredients.filter (fun r => ¬ (r.name = name)) }

/-- Validation performed by `ProductEditor.on_save` before touching the store:
at least one row, at most `MAX_ROWS = 30` rows, every percentage `> 0`. -/
def valid_items (items : List (String × ℚ)) : Prop :=
  items ≠ [] ∧ items.length ≤ 30 ∧ ∀ p ∈ items, 0 < p.2

/-- `ProductEditor.on_save`.  With `product_id = none` (Add New Product) it
inserts the product — failing with DuplicateKey (`none` result) when the
product name exists — then inserts the formula rows.  With `product_id = some
pid` (Edit) it renames the product, deletes all its formula rows and reinserts
the new ones (full replace, never a partial patch). -/
def save_product (s : Store) (product_id : Option ℕ) (name : String)
    (items : List (String × ℚ)) : Store × Option ℕ :=
  match product_id with
  | none =>
      if s.products.any (fun p => p.2 = name) then (s, none)
      else
        let pid := s.nextProductId
        ({ s with
            products := s.products ++ [(pid, name)],
            product_ingredients :=
              s.product_ingredients ++ items.map (fun it => ⟨pid, it.1, it.2⟩),
            nextProductId := pid + 1 }, some pid)
  | some pid =>
      ({ s with
          products := s.products.map (fun p => if p.1 = pid then (pid, name) else p),
          product_ingredients :=
            s.product_ingredients.filter (fun fr => ¬ (fr.product_id = pid))
              ++ items.map (fun it => ⟨pid, it.1, it.2⟩) }, some pid)

/-- `ProductsFrame.delete_product`: delete the formula rows, then the
product. -/
def delete_product (s : Store) (pid : ℕ) : Store :=
  { s with
      products := s.products.filter (fun p => ¬ (p.1 = pid)),
      product_ingredients :=
        s.product_ingredients.filter (fun fr => ¬ (fr.product_id = pid)) }

/-- `SELECT ingredient_name, percentage FROM product_ingredients WHERE
product_id=?`: the formula of a product, in table order. -/
def formulaOf (s : Store) (pid : ℕ) : List (String × ℚ) :=
  (s.product_ingredients.filter (fun fr => fr.product_id = pid)).map
    (fun fr => (fr.ingredient_name, fr.percentage))

/-- Required quantity of one formula row:
`required_kg = kilos * (perc / 100.0)`. -/
def requiredKg (kilos perc : ℚ) : ℚ := kilos * (perc / 100)

/-- The Formula Resolver: per formula row, the required ingredient quantity for
the target output `kilos` (the expression shared by `check_requirements`,
`confirm_production` and `delete_production`). -/
def resolve (items : List (String × ℚ)) (kilos : ℚ) : List (String × ℚ) :=
  items.map (fun p => (p.1, requiredKg kilos p.2))

/-- The sufficiency test of both `check_requirements` and
`confirm_production`: insufficient exactly when
`available_kg + 1e-9 < required_kg`. -/
def insufficientCheck (available required : ℚ) : Bool :=
  available + eps < required

/-- One display row produced by `ProductionFrame.check_requirements`. -/
structure ReqRow where
  ingredient : String
  percentage : ℚ
  required_kg : ℚ
  available_kg : ℚ
  insufficient : Bool
deriving DecidableEq

/-- `ProductionFrame.check_requirements` (side-effect-free): for each formula
row, required vs available and the insufficiency flag (the red `insufficient`
tag). -/
def check_requirements (s : Store) (pid : ℕ) (kilos : ℚ) : List ReqRow :=
  (formulaOf s pid).map (fun p =>
    let required_kg := requiredKg kilos p.2
    let available_kg := availableQty s p.1
    ⟨p.1, p.2, required_kg, available_kg, insufficientCheck available_kg required_kg⟩)

/-- One entry of the shortage list shown by the `InsufficientStock` error
dialog: ingredient, needed kg, available kg. -/
structure Shortage where
  ingredient : String
  required_kg : ℚ
  available_kg : ℚ
deriving DecidableEq

/-- The shortage list built by the re-check inside
`ProductionFrame.confirm_production`: every formula row whose available
quantity fails the sufficiency test, with its required and available kg. -/
def shortagesOf (s : Store) (items : List (String × ℚ)) (kilos : ℚ) :
    List Shortage :=
  items.filterMap (fun p =>
    let required_kg := requiredKg kilos p.2
    let available := availableQty s p.1
    if insufficientCheck available required_kg then
      some ⟨p.1, required_kg, available⟩
    else none)

/-- The debit loop of `confirm_production`: one unconditional ledger debit per
formula row. -/
def debitAll (l : List Ingredient) (items : List (String × ℚ)) (kilos : ℚ) :
    List Ingredient :=
  items.foldl (fun acc p => debit acc p.1 (requiredKg kilos p.2)) l

/-- The credit loop of `delete_production`: one unconditional ledger credit per
formula row. -/
def creditAll (l : List Ingredient) (items : List (String × ℚ)) (kilos : ℚ) :
    List Ingredient :=
  items.foldl (fun acc p => credit acc p.1 (requiredKg kilos p.2)) l

/-- Outcome of `ProductionFrame.confirm_production`. -/
inductive ConfirmOutcome where
  | insufficientStock (shortages : List Shortage)
  | confirmed (production_id : ℕ)
deriving DecidableEq

/-- `ProductionFrame.confirm_production` (after the product lookup): re-runs
the sufficiency check; on any shortage it fails with the full shortage list
and performs no mutation (it returns before any `UPDATE`/`INSERT`); otherwise
it debits every formula row and appends one production record. -/
def confirm_production (s : Store) (pid : ℕ) (pname : String) (kilos : ℚ)
    (produced_at batch_number : String) : Store × ConfirmOutcome :=
  let items := formulaOf s pid
  let shortages := shortagesOf s items kilos
  if shortages = [] then
    ({ s with
        ingredients := debitAll s.ingredients items kilos,
        productions := s.productions ++
          [⟨s.nextProductionId, pid, pname, kilos, produced_at, batch_number⟩],
        nextProductionId := s.nextProductionId + 1 },
     .confirmed s.nextProductionId)
  else
    (s, .insufficientStock shortages)

/-- Outcome of `ProductionFrame.delete_production`. -/
inductive DeleteOutcome where
  | notFound
  | deleted
deriving DecidableEq

/-- `ProductionFrame.delete_production`: look the record up by its unique id
(NotFound if absent), re-resolve the referenced product's *current* formula
against the stored output quantity, credit every resulting amount back, then
delete the record. -/
def delete_production (s : Store) (prod_id : ℕ) : Store × DeleteOutcome :=
  match s.productions.find? (fun p => p.id = prod_id) with
  | none => (s, .notFound)
  | some r0 =>
      let items := formulaOf s r0.product_id
      ({ s with
          ingredients := creditAll s.ingredients items r0.kilos_produced,
          productions := s.productions.filter (fun p => ¬ (p.id = prod_id)) },
       .deleted)

/-- ASCII lower-casing of one character, as Python's `str.lower` / sqlite's
`NOCASE` collation do for ASCII text. -/
def lowerChar (c : Char) : Char :=
  if 65 ≤ c.toNat ∧ c.toNat ≤ 90 then Char.ofNat (c.toNat + 32) else c

/-- ASCII lower-casing of a string; two names are "case-insensitively equal"
when their `lowerName` images coincide. -/
def lowerName (s : String) : String := ⟨s.data.map lowerChar⟩

/-- Total quantity the formula rows named `n` charge for a production of
`kilos` (several rows may share a name: the loops then hit the same ledger row
several times). -/
def chargeFor (items : List (String × ℚ)) (kilos : ℚ) (n : String) : ℚ :=
  ((items.filter (fun p => p.1 = n)).map (fun p => requiredKg kilos p.2)).sum

/-- A store already holding an ingredient named "Sugar". -/
def sugarStore : Store :=
  { ingredients := [⟨"Sugar", 5, ""⟩], products := [], product_ingredients := [],
    productions := [], nextProductId := 1, nextProductionId := 1 }

/-- The store obtained by adding "Sugar" once to a fresh database. -/
def sugarOnce : Store := (add_ingredient emptyStore "Sugar" 5 "").1

/-- The specification's demo scenario: "Flour" at 100 kg, product "Bread" with
formula `[("Flour", 50%)]`. -/
def demoStore : Store :=
  { ingredients := [⟨"Flour", 100, "Mill"⟩],
    products := [(1, "Bread")],
    product_ingredients := [⟨1, "Flour", 50⟩],
    productions := [],
    nextProductId := 2, nextProductionId := 1 }

/-- The store after confirming 150 kg of Bread in `demoStore`: Flour debited
to 25 kg and one production record added. -/
def roundtripMid : Store :=
  { ingredients := [⟨"Flour", 25, "Mill"⟩],
    products := [(1, "Bread")],
    product_ingredients := [⟨1, "Flour", 50⟩],
    productions := [⟨1, 1, "Bread", 150, "", ""⟩],
    nextProductId := 2, nextProductionId := 2 }

/-- A history record whose product (id 7) no longer has formula rows. -/
def orphanStore : Store :=
  { ingredients := [⟨"Flour", 100, ""⟩], products := [],
    product_ingredients := [], productions := [⟨1, 7, "Bread", 5, "", ""⟩],
    nextProductId := 1, nextProductionId := 2 }

/-- A ledger state in which ingredient "A" is already negative (reachable, for
example, through the duplicate-formula-row anomaly or a manual edit). -/
def negStore : Store :=
  { ingredients := [⟨"A", -1, ""⟩], products := [(1, "P")],
    product_ingredients := [⟨1, "A", 100⟩], productions := [],
    nextProductId := 2, nextProductionId := 1 }

/-- Invariant pack maintained by the restricted (safe) workflow. -/
structure GoodStore (s : Store) : Prop where
  qty_lb : ∀ r ∈ s.ingredients, -eps ≤ r.qty_kg
  names_nodup : (s.ingredients.map Ingredient.name).Nodup
  kilos_nonneg : ∀ p ∈ s.productions, 0 ≤ p.kilos_produced
  perc_pos : ∀ fr ∈ s.product_ingredients, 0 < fr.percentage
  formula_nodup : ∀ pid, ((formulaOf s pid).map Prod.fst).Nodup
  frid_lt : ∀ fr ∈ s.product_ingredients, fr.product_id < s.nextProductId
  prodid_lt : ∀ p ∈ s.products, p.1 < s.nextProductId

/-- States reachable through the public workflow as the code implements it:
fresh database, then adds with non-negative initial quantity, non-negative
restocks, ingredient deletes, validated product saves (`on_save` accepts
duplicate ingredient rows!), product deletes, check-then-confirm productions
(any target quantity the kilos entry parses), and production reversals. -/
inductive Reachable : Store → Prop where
  | init : Reachable emptyStore
  | add (s : Store) (name : String) (qty : ℚ) (supplier : String) :
      Reachable s → 0 ≤ qty → Reachable (add_ingredient s name qty supplier).1
  | restock (s : Store) (name : String) (amt : ℚ) :
      Reachable s → 0 ≤ amt → Reachable (restock_ingredient s name amt)
  | deleteIng (s : Store) (name : String) :
      Reachable s → Reachable (delete_ingredient s name)
  | save (s : Store) (product_id : Option ℕ) (name : String)
      (items : List (String × ℚ)) :
      Reachable s → valid_items items →
      Reachable (save_product s product_id name items).1
  | deleteProd (s : Store) (pid : ℕ) :
      Reachable s → Reachable (delete_product s pid)
  | confirm (s : Store) (pid : ℕ) (pname : String) (kilos : ℚ) (t b : String) :
      Reachable s → Reachable (confirm_production s pid pname kilos t b).1
  | deleteProduction (s : Store) (prod_id : ℕ) :
      Reachable s → Reachable (delete_production s prod_id).1

/-- The workflow of `Reachable` restricted to sane uses: production quantities
are non-negative, every saved formula has pairwise-distinct ingredient names,
and edits target an existing product id. -/
inductive ReachableSafe : Store → Prop where
  | init : ReachableSafe emptyStore
  | add (s : Store) (name : String) (qty : ℚ) (supplier : String) :
      ReachableSafe s → 0 ≤ qty →
      ReachableSafe (add_ingredient s name qty supplier).1
  | restock (s : Store) (name : String) (amt : ℚ) :
      ReachableSafe s → 0 ≤ amt → ReachableSafe (restock_ingredient s name amt)
  | deleteIng (s : Store) (name : String) :
      ReachableSafe s → ReachableSafe (delete_ingredient s name)
  | save (s : Store) (product_id : Option ℕ) (name : String)
      (items : List (String × ℚ)) :
      ReachableSafe s → valid_items items → (items.map Prod.fst).Nodup →
      (∀ pid0, product_id = some pid0 → pid0 < s.nextProductId) →
      ReachableSafe (save_product s product_id name items).1
  | deleteProd (s : Store) (pid : ℕ) :
      ReachableSafe s → ReachableSafe (delete_product s pid)
  | confirm (s : Store) (pid : ℕ) (pname : String) (kilos : ℚ) (t b : String) :
      ReachableSafe s → 0 ≤ kilos →
      ReachableSafe (confirm_production s pid pname kilos t b).1
  | deleteProduction (s : Store) (prod_id : ℕ) :
      ReachableSafe s → ReachableSafe (delete_production s prod_id).1

/-- Stock after adding 10 kg of "A". -/
def dupStep1 : Store := (add_ingredient emptyStore "A" 10 "").1

/-- Product "P" whose formula lists ingredient "A" twice at 100% each —
`on_save` accepts this (it never deduplicates ingredient rows). -/
def dupStep2 : Store := (save_product dupStep1 none "P" [("A", 100), ("A", 100)]).1

/-- Confirming 10 kg of "P": the check reads the pre-state twice (10 kg
available for each row), passes, and the debit loop then subtracts 10 kg
twice. -/
def dupBadStore : Store := (confirm_production dupStep2 1 "P" 10 "" "").1

/-- Flour added through the workflow. -/
def safeStep1 : Store := (add_ingredient emptyStore "Flour" 100 "").1

/-- Bread saved through the workflow with a duplicate-free formula. -/
def safeStep2 : Store := (save_product safeStep1 none "Bread" [("Flour", 50)]).1

/-- A production of 150 kg of Bread confirmed through the workflow. -/
def safeStore : Store := (confirm_production safeStep2 1 "Bread" 150 "" "").1

/-- C5: `resolve` computes, for each formula row, exactly
`targetQuantityKg × (percentage / 100)`, and `check_requirements` reports
exactly the resolver's required quantities.  (`resolve` is a plain function of
the formula rows and the target quantity, hence deterministic and
side-effect-free: it does not even receive the store.) -/
theorem resolve_spec (s : Store) (pid : ℕ) (kilos : ℚ) :
    resolve (formulaOf s pid) kilos
      = (formulaOf s pid).map (fun p => (p.1, kilos * (p.2 / 100))) ∧
    (check_requirements s pid kilos).map (fun row => (row.ingredient, row.required_kg))
      = resolve (formulaOf s pid) kilos := by
  constructor
  · rfl
  · simp only [check_requirements, resolve, List.map_map]
    rfl

/-- C6: the resolver scales linearly in the target quantity:
`resolve(P, 2Q) = 2 × resolve(P, Q)` element-wise. -/
theorem resolve_linear (items : List (String × ℚ)) (kilos : ℚ) :
    resolve items (2 * kilos) = (resolve items kilos).map (fun p => (p.1, 2 * p.2)) := by
  simp only [resolve, List.map_map]
  refine List.map_congr_left (fun p _ => ?_)
  simp only [Function.comp_apply, requiredKg, Prod.mk.injEq, true_and]
  ring

/-- C1: if any formula ingredient is insufficient
(`available + 1e-9 < required`), `confirm_production` fails with the full
shortage list — an entry, with its required and available quantity, for
exactly every insufficient formula row — and performs no mutation at all: the
returned store (ledger and production table included) is the input store. -/
theorem confirm_production_insufficient_all_or_nothing
    (s : Store) (pid : ℕ) (pname : String) (kilos : ℚ) (t b : String)
    (h : ∃ p ∈ formulaOf s pid,
      insufficientCheck (availableQty s p.1) (requiredKg kilos p.2) = true) :
    ∃ L, confirm_production s pid pname kilos t b = (s, .insufficientStock L) ∧
      ∀ sh, sh ∈ L ↔ ∃ p ∈ formulaOf s pid,
        insufficientCheck (availableQty s p.1) (requiredKg kilos p.2) = true ∧
        sh = ⟨p.1, requiredKg kilos p.2, availableQty s p.1⟩ := by
  have hne : shortagesOf s (formulaOf s pid) kilos ≠ [] := by
    obtain ⟨p, hp, hins⟩ := h
    intro hnil
    unfold shortagesOf at hnil
    rw [List.filterMap_eq_nil_iff] at hnil
    have := hnil p hp
    simp only [hins, if_true] at this
    exact Option.some_ne_none _ this
  refine ⟨shortagesOf s (formulaOf s pid) kilos, ?_, ?_⟩
  · simp only [confirm_production]
    rw [if_neg hne]
  · intro sh
    simp only [shortagesOf, List.mem_filterMap]
    constructor
    · rintro ⟨p, hp, hf⟩
      by_cases hc : insufficientCheck (availableQty s p.1) (requiredKg kilos p.2)
      · simp only [hc, if_true, Option.some.injEq] at hf
        exact ⟨p, hp, hc, hf.symm⟩
      · simp only [hc, if_false] at hf
        cases hf
    · rintro ⟨p, hp, hc, rfl⟩
      exact ⟨p, hp, by simp only [hc, if_true]⟩

/-- C8: a name with no row in the `ingredients` table is read as quantity 0 —
not an error — by `available`, by every `check_requirements` row and by the
shortage entries of `confirm_production`'s internal re-check. -/
theorem available_missing_is_zero (s : Store) (n : String)
    (h : ∀ r ∈ s.ingredients, r.name ≠ n) :
    availableQty s n = 0 ∧
    (∀ pid kilos, ∀ row ∈ check_requirements s pid kilos,
        row.ingredient = n → row.available_kg = 0) ∧
    (∀ items kilos, ∀ sh ∈ shortagesOf s items kilos,
        sh.ingredient = n → sh.available_kg = 0) := by
  have h0 : availableQty s n = 0 := by
    unfold availableQty availQ
    have : s.ingredients.find? (fun r => r.name = n) = none := by
      rw [List.find?_eq_none]
      intro r hr
      simp only [decide_eq_true_eq]
      exact h r hr
    rw [this]
  refine ⟨h0, ?_, ?_⟩
  · intro pid kilos row hrow hname
    simp only [check_requirements, List.mem_map] at hrow
    obtain ⟨p, _, rfl⟩ := hrow
    simp only at hname ⊢
    rw [hname]
    exact h0
  · intro items kilos sh hsh hname
    simp only [shortagesOf, List.mem_filterMap] at hsh
    obtain ⟨p, _, hf⟩ := hsh
    by_cases hc : insufficientCheck (availableQty s p.1) (requiredKg kilos p.2)
    · simp only [hc, if_true, Option.some.injEq] at hf
      subst hf
      simp only at hname ⊢
      rw [hname]
      exact h0
    · simp only [hc, if_false] at hf
      cases hf

/-- C10: deleting a production whose referenced product has no formula rows
still succeeds: it removes exactly that record and leaves every table other
than `productions` — in particular every ingredient quantity — unchanged; and
a ledger credit aimed at a name with no `ingredients` row is a silent no-op. -/
theorem delete_production_empty_formula (s : Store) (prod_id : ℕ) (r0 : Production)
    (hfind : s.productions.find? (fun p => p.id = prod_id) = some r0)
    (hempty : formulaOf s r0.product_id = []) :
    (delete_production s prod_id).1.ingredients = s.ingredients ∧
    (delete_production s prod_id).1.products = s.products ∧
    (delete_production s prod_id).1.product_ingredients = s.product_ingredients ∧
    (delete_production s prod_id).1.productions
      = s.productions.filter (fun p => ¬ (p.id = prod_id)) ∧
    (delete_production s prod_id).2 = .deleted ∧
    ∀ (l : List Ingredient) (ing : String) (amt : ℚ),
      (∀ r ∈ l, r.name ≠ ing) → credit l ing amt = l := by
  have hcredit : ∀ (l : List Ingredient) (ing : String) (amt : ℚ),
      (∀ r ∈ l, r.name ≠ ing) → credit l ing amt = l := by
    intro l ing amt hl
    unfold credit
    have : ∀ r ∈ l,
        (if r.name = ing then { r with qty_kg := r.qty_kg + amt } else r) = id r :=
      fun r hr => by simp [hl r hr]
    rw [List.map_congr_left this, List.map_id]
  refine ⟨?_, ?_, ?_, ?_, ?_, hcredit⟩ <;>
    simp [delete_production, hfind, hempty, creditAll]

theorem chargeFor_nil (kilos : ℚ) (n : String) : chargeFor [] kilos n = 0 := rfl

theorem chargeFor_cons (a : String × ℚ) (items : List (String × ℚ)) (kilos : ℚ)
    (n : String) :
    chargeFor (a :: items) kilos n
      = (if a.1 = n then requiredKg kilos a.2 else 0) + chargeFor items kilos n := by
  unfold chargeFor
  rw [List.filter_cons]
  by_cases h : a.1 = n
  · simp [h]
  · simp [h]

theorem map_qty_id (l : List Ingredient) :
    l.map (fun r => ({ r with qty_kg := r.qty_kg - 0 } : Ingredient)) = l := by
  have h : ∀ r ∈ l, ({ r with qty_kg := r.qty_kg - 0 } : Ingredient) = id r := by
    intro r _
    cases r with
    | mk nm q sup => simp
  rw [List.map_congr_left h, List.map_id]

theorem debitAll_eq_map (items : List (String × ℚ)) (kilos : ℚ) :
    ∀ l : List Ingredient,
      debitAll l items kilos
        = l.map (fun r => { r with qty_kg := r.qty_kg - chargeFor items kilos r.name }) := by
  induction items with
  | nil =>
    intro l
    simp only [debitAll, List.foldl_nil, chargeFor_nil]
    exact (map_qty_id l).symm
  | cons a items ih =>
    intro l
    have hstep : debitAll l (a :: items) kilos
        = debitAll (debit l a.1 (requiredKg kilos a.2)) items kilos := rfl
    rw [hstep, ih, debit, List.map_map]
    refine List.map_congr_left (fun r _ => ?_)
    simp only [Function.comp_apply, chargeFor_cons]
    by_cases hn : r.name = a.1
    · rw [if_pos hn, if_pos hn.symm]
      show ({ r with qty_kg :=
          (r.qty_kg - requiredKg kilos a.2) - chargeFor items kilos r.name } : Ingredient)
        = { r with qty_kg :=
          r.qty_kg - (requiredKg kilos a.2 + chargeFor items kilos r.name) }
      have harith : (r.qty_kg - requiredKg kilos a.2) - chargeFor items kilos r.name
          = r.qty_kg - (requiredKg kilos a.2 + chargeFor items kilos r.name) := by ring
      rw [harith]
    · have hn2 : ¬ (a.1 = r.name) := fun hc => hn hc.symm
      rw [if_neg hn, if_neg hn2]
      show ({ r with qty_kg := r.qty_kg - chargeFor items kilos r.name } : Ingredient)
        = { r with qty_kg := r.qty_kg - (0 + chargeFor items kilos r.name) }
      have harith : r.qty_kg - chargeFor items kilos r.name
          = r.qty_kg - (0 + chargeFor items kilos r.name) := by ring
      rw [harith]

theorem creditAll_eq_map (items : List (String × ℚ)) (kilos : ℚ) :
    ∀ l : List Ingredient,
      creditAll l items kilos
        = l.map (fun r => { r with qty_kg := r.qty_kg + chargeFor items kilos r.name }) := by
  induction items with
  | nil =>
    intro l
    simp only [creditAll, List.foldl_nil, chargeFor_nil]
    have : ∀ r : Ingredient, ({ r with qty_kg := r.qty_kg + 0 } : Ingredient)
        = { r with qty_kg := r.qty_kg - 0 } := by
      intro r
      simp
    simp only [this]
    exact (map_qty_id l).symm
  | cons a items ih =>
    intro l
    have hstep : creditAll l (a :: items) kilos
        = creditAll (credit l a.1 (requiredKg kilos a.2)) items kilos := rfl
    rw [hstep, ih, credit, List.map_map]
    refine List.map_congr_left (fun r _ => ?_)
    simp only [Function.comp_apply, chargeFor_cons]
    by_cases hn : r.name = a.1
    · rw [if_pos hn, if_pos hn.symm]
      show ({ r with qty_kg :=
          (r.qty_kg + requiredKg kilos a.2) + chargeFor items kilos r.name } : Ingredient)
        = { r with qty_kg :=
          r.qty_kg + (requiredKg kilos a.2 + chargeFor items kilos r.name) }
      have harith : (r.qty_kg + requiredKg kilos a.2) + chargeFor items kilos r.name
          = r.qty_kg + (requiredKg kilos a.2 + chargeFor items kilos r.name) := by ring
      rw [harith]
    · have hn2 : ¬ (a.1 = r.name) := fun hc => hn hc.symm
      rw [if_neg hn, if_neg hn2]
      show ({ r with qty_kg := r.qty_kg + chargeFor items kilos r.name } : Ingredient)
        = { r with qty_kg := r.qty_kg + (0 + chargeFor items kilos r.name) }
      have harith : r.qty_kg + chargeFor items kilos r.name
          = r.qty_kg + (0 + chargeFor items kilos r.name) := by ring
      rw [harith]

theorem creditAll_debitAll (l : List Ingredient) (items : List (String × ℚ))
    (kilos : ℚ) : creditAll (debitAll l items kilos) items kilos = l := by
  rw [debitAll_eq_map, creditAll_eq_map, List.map_map]
  have : ∀ r ∈ l,
      (((fun r : Ingredient => { r with qty_kg := r.qty_kg + chargeFor items kilos r.name }) ∘
        (fun r : Ingredient => { r with qty_kg := r.qty_kg - chargeFor items kilos r.name })) r)
        = id r := by
    intro r _
    simp only [Function.comp_apply, id_eq]
    cases r with
    | mk nm q sup =>
      simp only [Ingredient.mk.injEq, and_true, true_and]
      ring
  rw [List.map_congr_left this, List.map_id]

theorem find?_append_right {α : Type} (l₁ l₂ : List α) (p : α → Bool)
    (h : ∀ a ∈ l₁, ¬ p a) : (l₁ ++ l₂).find? p = l₂.find? p := by
  rw [List.find?_append, List.find?_eq_none.mpr h, Option.none_or]

/-- C2: when `confirm_production` succeeds, immediately deleting the returned
production restores the `ingredients` table — hence every touched quantity —
to exactly its pre-confirmation state and removes the record (the `productions`
table is back to its previous contents).  The freshness hypothesis mirrors the
`PRIMARY KEY` uniqueness of production ids (new rowids never collide with
existing rows). -/
theorem confirm_then_delete_roundtrip (s : Store) (pid : ℕ) (pname : String)
    (kilos : ℚ) (t b : String) (s' : Store) (nid : ℕ)
    (hfresh : ∀ p ∈ s.productions, p.id ≠ s.nextProductionId)
    (hok : confirm_production s pid pname kilos t b = (s', .confirmed nid)) :
    (delete_production s' nid).1.ingredients = s.ingredients ∧
    (delete_production s' nid).1.productions = s.productions ∧
    (delete_production s' nid).2 = .deleted := by
  by_cases hsh : shortagesOf s (formulaOf s pid) kilos = []
  case neg =>
    exfalso
    simp only [confirm_production] at hok
    rw [if_neg hsh] at hok
    have h2 := congrArg Prod.snd hok
    simp only at h2
    cases h2
  case pos =>
  simp only [confirm_production] at hok
  rw [if_pos hsh] at hok
  have hs' := congrArg Prod.fst hok
  have hnid := congrArg Prod.snd hok
  simp only at hs' hnid
  have hnid2 : nid = s.nextProductionId := by
    cases hnid
    rfl
  subst hnid2
  subst hs'
  have hpred : ∀ p ∈ s.productions,
      ¬ (decide (p.id = s.nextProductionId) = true) := by
    intro p hp
    simp only [decide_eq_true_eq]
    exact hfresh p hp
  have hfind : (s.productions ++
        ([⟨s.nextProductionId, pid, pname, kilos, t, b⟩] : List Production)).find?
        (fun p => p.id = s.nextProductionId)
      = some (⟨s.nextProductionId, pid, pname, kilos, t, b⟩ : Production) := by
    rw [find?_append_right _ _ _ hpred]
    simp [List.find?]
  refine ⟨?_, ?_, ?_⟩
  · simp only [delete_production, hfind]
    show creditAll (debitAll s.ingredients (formulaOf s pid) kilos)
        (formulaOf s pid) kilos = s.ingredients
    exact creditAll_debitAll s.ingredients (formulaOf s pid) kilos
  · simp only [delete_production, hfind]
    show (s.productions ++ ([⟨s.nextProductionId, pid, pname, kilos, t, b⟩] : List Production)).filter
        (fun p => ¬ (p.id = s.nextProductionId)) = s.productions
    rw [List.filter_append]
    have h1 : s.productions.filter (fun p => ¬ (p.id = s.nextProductionId))
        = s.productions := by
      rw [List.filter_eq_self]
      intro p hp
      simp only [decide_eq_true_eq]
      exact hfresh p hp
    have h2 : ([⟨s.nextProductionId, pid, pname, kilos, t, b⟩] : List Production).filter
        (fun p => ¬ (p.id = s.nextProductionId)) = [] := by
      simp [List.filter]
    rw [h1, h2, List.append_nil]
  · simp only [delete_production, hfind]

/-- C3: the insufficiency flag of every `check_requirements` row holds exactly
when `available + 1e-9 < required`; and whenever every formula ingredient's
available quantity equals its required quantity exactly, `confirm_production`
succeeds rather than failing. -/
theorem sufficiency_boundary (s : Store) (pid : ℕ) (pname : String) (kilos : ℚ)
    (t b : String)
    (heq : ∀ p ∈ formulaOf s pid, availableQty s p.1 = requiredKg kilos p.2) :
    (∀ row ∈ check_requirements s pid kilos,
        (row.insufficient = true ↔ row.available_kg + eps < row.required_kg)) ∧
    (∀ p ∈ formulaOf s pid,
        (insufficientCheck (availableQty s p.1) (requiredKg kilos p.2) = true
          ↔ availableQty s p.1 + eps < requiredKg kilos p.2)) ∧
    ∃ s', confirm_production s pid pname kilos t b
        = (s', .confirmed s.nextProductionId) := by
  refine ⟨?_, ?_, ?_⟩
  · intro row hrow
    simp only [check_requirements, List.mem_map] at hrow
    obtain ⟨p, _, rfl⟩ := hrow
    simp [insufficientCheck]
  · intro p _
    simp [insufficientCheck]
  · have hempty : shortagesOf s (formulaOf s pid) kilos = [] := by
      unfold shortagesOf
      rw [List.filterMap_eq_nil_iff]
      intro p hp
      have heqp := heq p hp
      have hlt : ¬ (availableQty s p.1 + eps < requiredKg kilos p.2) := by
        rw [heqp]
        have heps : (0:ℚ) < eps := by norm_num [eps]
        intro hcon
        linarith
      simp [insufficientCheck, hlt]
    refine ⟨{ s with
        ingredients := debitAll s.ingredients (formulaOf s pid) kilos,
        productions := s.productions ++
          [⟨s.nextProductionId, pid, pname, kilos, t, b⟩],
        nextProductionId := s.nextProductionId + 1 }, ?_⟩
    simp only [confirm_production]
    rw [if_pos hempty]

/-- C7 counterexample: ingredient-name uniqueness is NOT case-insensitive.
"sugar" is case-insensitively equal to the existing "Sugar", yet
`add_ingredient` succeeds (sqlite's `UNIQUE` constraint compares with the
default BINARY collation), instead of failing with DuplicateKey as the claim
requires. -/
theorem add_ingredient_case_insensitive_counterexample :
    (∃ r ∈ sugarStore.ingredients, lowerName r.name = lowerName "sugar") ∧
    (add_ingredient sugarStore "sugar" 1 "").2 = .added ∧
    (add_ingredient sugarStore "sugar" 1 "").2 ≠ .duplicateKey := by
  refine ⟨⟨⟨"Sugar", 5, ""⟩, ?_, ?_⟩, rfl, ?_⟩
  · simp [sugarStore]
  · decide
  · intro hcon
    cases hcon

/-- C7 amended: ingredient names are unique up to exact (case-sensitive)
equality: `add_ingredient` with a name that already exists verbatim fails with
DuplicateKey and leaves the store completely unchanged; in particular adding
"Sugar" twice (same spelling) yields DuplicateKey on the second call. -/
theorem add_ingredient_duplicate_exact (s : Store) (name : String) (qty : ℚ)
    (supplier : String) (h : ∃ r ∈ s.ingredients, r.name = name) :
    add_ingredient s name qty supplier = (s, .duplicateKey) := by
  unfold add_ingredient
  have hany : s.ingredients.any (fun r => r.name = name) = true := by
    rw [List.any_eq_true]
    obtain ⟨r, hr, hn⟩ := h
    exact ⟨r, hr, by simp [hn]⟩
  rw [if_pos hany]

/-- Witness for the amended C7: the second addition of "Sugar" fails with
DuplicateKey and changes nothing. -/
theorem add_ingredient_duplicate_exact_witness :
    add_ingredient sugarOnce "Sugar" 3 "" = (sugarOnce, .duplicateKey) :=
  add_ingredient_duplicate_exact sugarOnce "Sugar" 3 ""
    ⟨⟨"Sugar", 5, ""⟩, by simp [sugarOnce, add_ingredient, emptyStore], rfl⟩

/-- Witness for C1: producing 400 kg of Bread needs 200 kg of Flour but only
100 kg is available, so `confirm_production` fails and changes nothing. -/
theorem confirm_production_insufficient_all_or_nothing_witness :
    ∃ L, confirm_production demoStore 1 "Bread" 400 "" ""
        = (demoStore, .insufficientStock L) ∧
      ∀ sh, sh ∈ L ↔ ∃ p ∈ formulaOf demoStore 1,
        insufficientCheck (availableQty demoStore p.1) (requiredKg 400 p.2) = true ∧
        sh = ⟨p.1, requiredKg 400 p.2, availableQty demoStore p.1⟩ :=
  confirm_production_insufficient_all_or_nothing demoStore 1 "Bread" 400 "" ""
    ⟨("Flour", 50), by simp [formulaOf, demoStore],
      by norm_num [insufficientCheck, availableQty, availQ, demoStore, requiredKg,
        eps, List.find?]⟩

/-- Witness for C2: confirming 150 kg of Bread and deleting the resulting
record restores Flour to 100 kg and empties the history. -/
theorem confirm_then_delete_roundtrip_witness :
    (delete_production roundtripMid 1).1.ingredients = demoStore.ingredients ∧
    (delete_production roundtripMid 1).1.productions = demoStore.productions ∧
    (delete_production roundtripMid 1).2 = .deleted :=
  confirm_then_delete_roundtrip demoStore 1 "Bread" 150 "" "" roundtripMid 1
    (by simp [demoStore])
    (by norm_num [confirm_production, shortagesOf, formulaOf, demoStore, roundtripMid,
      availableQty, availQ, insufficientCheck, requiredKg, eps, debitAll, debit,
      List.find?])

/-- Witness for C3: at 200 kg of Bread the required Flour (100 kg) equals the
available Flour exactly, and `confirm_production` succeeds. -/
theorem sufficiency_boundary_witness :
    (∀ row ∈ check_requirements demoStore 1 200,
        (row.insufficient = true ↔ row.available_kg + eps < row.required_kg)) ∧
    (∀ p ∈ formulaOf demoStore 1,
        (insufficientCheck (availableQty demoStore p.1) (requiredKg 200 p.2) = true
          ↔ availableQty demoStore p.1 + eps < requiredKg 200 p.2)) ∧
    ∃ s', confirm_production demoStore 1 "Bread" 200 "" ""
        = (s', .confirmed demoStore.nextProductionId) :=
  sufficiency_boundary demoStore 1 "Bread" 200 "" "" (by
    intro p hp
    simp only [formulaOf, demoStore, List.filter, List.map] at hp
    norm_num at hp
    subst hp
    norm_num [availableQty, availQ, demoStore, requiredKg, List.find?])

/-- Witness for C8: "Sugar" has no ledger row in `demoStore` and is read as
zero. -/
theorem available_missing_is_zero_witness :
    availableQty demoStore "Sugar" = 0 :=
  (available_missing_is_zero demoStore "Sugar" (by decide)).1

/-- Witness for C10: deleting the orphaned production succeeds and leaves the
ledger untouched. -/
theorem delete_production_empty_formula_witness :
    (delete_production orphanStore 1).2 = .deleted ∧
    (delete_production orphanStore 1).1.ingredients = orphanStore.ingredients := by
  have h := delete_production_empty_formula orphanStore 1 ⟨1, 7, "Bread", 5, "", ""⟩
    rfl rfl
  exact ⟨h.2.2.2.2.1, h.1⟩

theorem list_sum_nonpos (l : List ℚ) (h : ∀ x ∈ l, x ≤ 0) : l.sum ≤ 0 := by
  induction l with
  | nil => simp
  | cons a t ih =>
    simp only [List.sum_cons]
    have ha := h a (by simp)
    have ht := ih (fun x hx => h x (List.mem_cons_of_mem a hx))
    linarith

theorem list_sum_neg (l : List ℚ) (h : ∀ x ∈ l, x ≤ 0) (h2 : ∃ x ∈ l, x < 0) :
    l.sum < 0 := by
  induction l with
  | nil => simp at h2
  | cons a t ih =>
    simp only [List.sum_cons]
    have ha := h a (by simp)
    obtain ⟨x, hx, hxneg⟩ := h2
    rcases List.mem_cons.mp hx with hxa | hxt
    · have ht := list_sum_nonpos t (fun y hy => h y (List.mem_cons_of_mem a hy))
      subst hxa
      linarith
    · have ht := ih (fun y hy => h y (List.mem_cons_of_mem a hy)) ⟨x, hxt, hxneg⟩
      linarith

theorem chargeFor_nonpos (items : List (String × ℚ)) (kilos : ℚ) (n : String)
    (hk : kilos ≤ 0) (hperc : ∀ p ∈ items, 0 ≤ p.2) :
    chargeFor items kilos n ≤ 0 := by
  unfold chargeFor
  refine list_sum_nonpos _ ?_
  intro x hx
  rw [List.mem_map] at hx
  obtain ⟨p, hp, rfl⟩ := hx
  have hp2 : 0 ≤ p.2 := hperc p (List.mem_of_mem_filter hp)
  unfold requiredKg
  have : (0:ℚ) ≤ p.2 / 100 := by positivity
  exact mul_nonpos_iff.mpr (Or.inr ⟨hk, this⟩)

theorem chargeFor_neg (items : List (String × ℚ)) (kilos : ℚ) (n : String)
    (hk : kilos < 0) (hperc : ∀ p ∈ items, 0 ≤ p.2)
    (hwit : ∃ p ∈ items, p.1 = n ∧ 0 < p.2) :
    chargeFor items kilos n < 0 := by
  unfold chargeFor
  refine list_sum_neg _ ?_ ?_
  · intro x hx
    rw [List.mem_map] at hx
    obtain ⟨p, hp, rfl⟩ := hx
    have hp2 : 0 ≤ p.2 := hperc p (List.mem_of_mem_filter hp)
    unfold requiredKg
    have : (0:ℚ) ≤ p.2 / 100 := by positivity
    exact mul_nonpos_iff.mpr (Or.inr ⟨hk.le, this⟩)
  · obtain ⟨p, hp, hpn, hp2⟩ := hwit
    refine ⟨requiredKg kilos p.2, ?_, ?_⟩
    · rw [List.mem_map]
      refine ⟨p, ?_, rfl⟩
      rw [List.mem_filter]
      exact ⟨hp, by simp [hpn]⟩
    · unfold requiredKg
      have : (0:ℚ) < p.2 / 100 := by positivity
      exact mul_neg_of_neg_of_pos hk this

/-- C9 amended: for a non-positive target quantity, provided every formula
percentage is non-negative and no formula ingredient's available quantity is
below `-1e-9` (in particular whenever stock is non-negative),
`confirm_production` never fails with InsufficientStock: it records the
non-positive quantity, and each ledger row is debited by the (non-positive)
total charge for its name — so no quantity decreases, and for a strictly
negative quantity every ledger row named by a positive-percentage formula row
strictly increases. -/
theorem confirm_production_nonpositive_quantity (s : Store) (pid : ℕ)
    (pname : String) (kilos : ℚ) (t b : String)
    (hk : kilos ≤ 0)
    (hperc : ∀ p ∈ formulaOf s pid, 0 ≤ p.2)
    (havail : ∀ p ∈ formulaOf s pid, -eps ≤ availableQty s p.1) :
    ∃ s', confirm_production s pid pname kilos t b
        = (s', .confirmed s.nextProductionId) ∧
      s'.productions = s.productions ++
        [⟨s.nextProductionId, pid, pname, kilos, t, b⟩] ∧
      s'.ingredients = s.ingredients.map (fun r =>
        { r with qty_kg := r.qty_kg - chargeFor (formulaOf s pid) kilos r.name }) ∧
      (∀ r ∈ s.ingredients,
        r.qty_kg ≤ r.qty_kg - chargeFor (formulaOf s pid) kilos r.name) ∧
      (kilos < 0 → ∀ r ∈ s.ingredients,
        (∃ p ∈ formulaOf s pid, p.1 = r.name ∧ 0 < p.2) →
        r.qty_kg < r.qty_kg - chargeFor (formulaOf s pid) kilos r.name) := by
  have hreq : ∀ p ∈ formulaOf s pid, requiredKg kilos p.2 ≤ 0 := by
    intro p hp
    have hp2 : 0 ≤ p.2 := hperc p hp
    unfold requiredKg
    have : (0:ℚ) ≤ p.2 / 100 := by positivity
    exact mul_nonpos_iff.mpr (Or.inr ⟨hk, this⟩)
  have hempty : shortagesOf s (formulaOf s pid) kilos = [] := by
    unfold shortagesOf
    rw [List.filterMap_eq_nil_iff]
    intro p hp
    have h1 := hreq p hp
    have h2 := havail p hp
    have hlt : ¬ (availableQty s p.1 + eps < requiredKg kilos p.2) := by
      intro hcon
      linarith
    simp [insufficientCheck, hlt]
  refine ⟨{ s with
      ingredients := debitAll s.ingredients (formulaOf s pid) kilos,
      productions := s.productions ++
        [⟨s.nextProductionId, pid, pname, kilos, t, b⟩],
      nextProductionId := s.nextProductionId + 1 }, ?_, rfl, ?_, ?_, ?_⟩
  · simp only [confirm_production]
    rw [if_pos hempty]
  · exact debitAll_eq_map (formulaOf s pid) kilos s.ingredients
  · intro r _
    have := chargeFor_nonpos (formulaOf s pid) kilos r.name hk hperc
    linarith
  · intro hkneg r _ hwit
    have := chargeFor_neg (formulaOf s pid) kilos r.name hkneg hperc hwit
    linarith

/-- C9 counterexample: with target quantity 0 (which is `≤ 0`) but ingredient
"A" at -1 kg, `confirm_production` DOES fail with InsufficientStock —
`-1 + 1e-9 < 0 = required` — so the claim's "regardless of the ledger state"
is false. -/
theorem confirm_production_nonpositive_counterexample :
    ((0:ℚ) ≤ 0) ∧
    (confirm_production negStore 1 "P" 0 "" "").2
      = .insufficientStock [⟨"A", 0, -1⟩] ∧
    (confirm_production negStore 1 "P" 0 "" "").1 = negStore := by
  refine ⟨le_refl 0, ?_, ?_⟩
  · norm_num [confirm_production, shortagesOf, formulaOf, negStore, availableQty,
      availQ, insufficientCheck, requiredKg, eps, List.find?, List.filterMap]
  · norm_num [confirm_production, shortagesOf, formulaOf, negStore, availableQty,
      availQ, insufficientCheck, requiredKg, eps, List.find?, List.filterMap]

/-- Witness for the amended C9: "producing" -10 kg of Bread succeeds and the
conclusion applies to the demo store. -/
theorem confirm_production_nonpositive_quantity_witness :
    ∃ s', confirm_production demoStore 1 "Bread" (-10) "" ""
        = (s', .confirmed demoStore.nextProductionId) ∧
      s'.productions = demoStore.productions ++
        [⟨demoStore.nextProductionId, 1, "Bread", -10, "", ""⟩] ∧
      s'.ingredients = demoStore.ingredients.map (fun r =>
        { r with qty_kg := r.qty_kg - chargeFor (formulaOf demoStore 1) (-10) r.name }) ∧
      (∀ r ∈ demoStore.ingredients,
        r.qty_kg ≤ r.qty_kg - chargeFor (formulaOf demoStore 1) (-10) r.name) ∧
      ((-10:ℚ) < 0 → ∀ r ∈ demoStore.ingredients,
        (∃ p ∈ formulaOf demoStore 1, p.1 = r.name ∧ 0 < p.2) →
        r.qty_kg < r.qty_kg - chargeFor (formulaOf demoStore 1) (-10) r.name) :=
  confirm_production_nonpositive_quantity demoStore 1 "Bread" (-10) "" ""
    (by norm_num)
    (by
      intro p hp
      simp only [formulaOf, demoStore, List.filter, List.map] at hp
      norm_num at hp
      subst hp
      norm_num)
    (by
      intro p hp
      simp only [formulaOf, demoStore, List.filter, List.map] at hp
      norm_num at hp
      subst hp
      norm_num [availableQty, availQ, demoStore, List.find?, eps])

theorem eps_pos : (0:ℚ) < eps := by norm_num [eps]

theorem availQ_of_mem (l : List Ingredient) (r : Ingredient)
    (hnd : (l.map Ingredient.name).Nodup) (hr : r ∈ l) :
    availQ l r.name = r.qty_kg := by
  induction l with
  | nil => cases hr
  | cons a t ih =>
    simp only [List.map_cons, List.nodup_cons] at hnd
    rcases List.mem_cons.mp hr with rfl | hrt
    · unfold availQ
      rw [List.find?_cons_of_pos _ (by simp)]
    · have hne : ¬ (a.name = r.name) := by
        intro hc
        exact hnd.1 (hc ▸ List.mem_map_of_mem Ingredient.name hrt)
      unfold availQ
      rw [List.find?_cons_of_neg _ (by simp [hne])]
      exact ih hnd.2 hrt

theorem filter_name_eq_nil_or_single (items : List (String × ℚ))
    (hnd : (items.map Prod.fst).Nodup) (n : String) :
    items.filter (fun p => p.1 = n) = [] ∨
      ∃ p ∈ items, p.1 = n ∧ items.filter (fun p => p.1 = n) = [p] := by
  induction items with
  | nil => left; rfl
  | cons a t ih =>
    simp only [List.map_cons, List.nodup_cons] at hnd
    by_cases ha : a.1 = n
    · right
      have ht : t.filter (fun p => p.1 = n) = [] := by
        rw [List.filter_eq_nil_iff]
        intro p hp
        simp only [decide_eq_true_eq]
        intro hc
        exact hnd.1 (by rw [ha, ← hc]; exact List.mem_map_of_mem Prod.fst hp)
      refine ⟨a, by simp, ha, ?_⟩
      rw [List.filter_cons]
      simp [ha, ht]
    · rcases ih hnd.2 with h0 | ⟨p, hp, hpn, hfil⟩
      · left
        rw [List.filter_cons]
        simp [ha, h0]
      · right
        refine ⟨p, List.mem_cons_of_mem a hp, hpn, ?_⟩
        rw [List.filter_cons]
        simp [ha, hfil]

theorem chargeFor_of_filter_nil (items : List (String × ℚ)) (kilos : ℚ) (n : String)
    (h : items.filter (fun p => p.1 = n) = []) : chargeFor items kilos n = 0 := by
  unfold chargeFor
  rw [h]
  rfl

theorem chargeFor_of_filter_single (items : List (String × ℚ)) (kilos : ℚ)
    (n : String) (p : String × ℚ)
    (h : items.filter (fun p => p.1 = n) = [p]) :
    chargeFor items kilos n = requiredKg kilos p.2 := by
  unfold chargeFor
  rw [h]
  simp

theorem chargeFor_nonneg (items : List (String × ℚ)) (kilos : ℚ) (n : String)
    (hk : 0 ≤ kilos) (hperc : ∀ p ∈ items, 0 ≤ p.2) :
    0 ≤ chargeFor items kilos n := by
  unfold chargeFor
  refine List.sum_nonneg ?_
  intro x hx
  rw [List.mem_map] at hx
  obtain ⟨p, hp, rfl⟩ := hx
  have hp2 : 0 ≤ p.2 := hperc p (List.mem_of_mem_filter hp)
  unfold requiredKg
  positivity

theorem debitAll_names (l : List Ingredient) (items : List (String × ℚ)) (kilos : ℚ) :
    (debitAll l items kilos).map Ingredient.name = l.map Ingredient.name := by
  rw [debitAll_eq_map, List.map_map]
  rfl

theorem creditAll_names (l : List Ingredient) (items : List (String × ℚ)) (kilos : ℚ) :
    (creditAll l items kilos).map Ingredient.name = l.map Ingredient.name := by
  rw [creditAll_eq_map, List.map_map]
  rfl

theorem credit_names (l : List Ingredient) (ing : String) (amt : ℚ) :
    (credit l ing amt).map Ingredient.name = l.map Ingredient.name := by
  unfold credit
  rw [List.map_map]
  refine List.map_congr_left (fun r _ => ?_)
  by_cases h : r.name = ing <;> simp [h]

theorem formulaOf_perc_pos (s : Store)
    (h : ∀ fr ∈ s.product_ingredients, 0 < fr.percentage) (pid : ℕ) :
    ∀ p ∈ formulaOf s pid, 0 < p.2 := by
  intro p hp
  unfold formulaOf at hp
  rw [List.mem_map] at hp
  obtain ⟨fr, hfr, rfl⟩ := hp
  exact h fr (List.mem_of_mem_filter hfr)

theorem goodStore_empty : GoodStore emptyStore := by
  constructor <;> simp [emptyStore, formulaOf]

theorem goodStore_add (s : Store) (name : String) (qty : ℚ) (supplier : String)
    (h : GoodStore s) (hq : 0 ≤ qty) :
    GoodStore (add_ingredient s name qty supplier).1 := by
  unfold add_ingredient
  by_cases hdup : s.ingredients.any (fun r => r.name = name) = true
  · rw [if_pos hdup]
    exact h
  · rw [if_neg hdup]
    refine ⟨?_, ?_, h.kilos_nonneg, h.perc_pos, h.formula_nodup, h.frid_lt, h.prodid_lt⟩
    · intro r hr
      rcases List.mem_append.mp hr with hl | hr1
      · exact h.qty_lb r hl
      · have hr2 := List.mem_singleton.mp hr1
        subst hr2
        show -eps ≤ qty
        have := eps_pos
        linarith
    · show ((s.ingredients ++ ([⟨name, qty, supplier⟩] : List Ingredient)).map
        Ingredient.name).Nodup
      rw [List.map_append, List.nodup_append]
      refine ⟨h.names_nodup, List.nodup_singleton _, ?_⟩
      intro a ha hb
      have hb2 : a = name := List.mem_singleton.mp hb
      subst hb2
      apply hdup
      rw [List.any_eq_true]
      rw [List.mem_map] at ha
      obtain ⟨r, hr, hrn⟩ := ha
      exact ⟨r, hr, by simp [hrn]⟩

theorem goodStore_restock (s : Store) (name : String) (amt : ℚ)
    (h : GoodStore s) (hamt : 0 ≤ amt) :
    GoodStore (restock_ingredient s name amt) := by
  unfold restock_ingredient
  refine ⟨?_, ?_, h.kilos_nonneg, h.perc_pos, h.formula_nodup, h.frid_lt, h.prodid_lt⟩
  · intro r' hr'
    have hr'2 : r' ∈ credit s.ingredients name amt := hr'
    unfold credit at hr'2
    rw [List.mem_map] at hr'2
    obtain ⟨r, hr, rfl⟩ := hr'2
    have hlb := h.qty_lb r hr
    by_cases hn : r.name = name
    · rw [if_pos hn]
      show -eps ≤ r.qty_kg + amt
      linarith
    · rw [if_neg hn]
      exact hlb
  · show ((credit s.ingredients name amt).map Ingredient.name).Nodup
    rw [credit_names]
    exact h.names_nodup

theorem goodStore_deleteIng (s : Store) (name : String) (h : GoodStore s) :
    GoodStore (delete_ingredient s name) := by
  unfold delete_ingredient
  refine ⟨?_, ?_, h.kilos_nonneg, h.perc_pos, h.formula_nodup, h.frid_lt, h.prodid_lt⟩
  · intro r hr
    exact h.qty_lb r (List.mem_of_mem_filter hr)
  · show ((s.ingredients.filter (fun r => ¬ (r.name = name))).map Ingredient.name).Nodup
    exact h.names_nodup.sublist ((List.filter_sublist _).map Ingredient.name)

theorem filter_append_left_nil {α : Type} (l1 l2 : List α) (p : α → Bool)
    (h : ∀ a ∈ l1, ¬ p a) : (l1 ++ l2).filter p = l2.filter p := by
  rw [List.filter_append, List.filter_eq_nil_iff.mpr h, List.nil_append]

theorem filter_append_right_nil {α : Type} (l1 l2 : List α) (p : α → Bool)
    (h : ∀ a ∈ l2, ¬ p a) : (l1 ++ l2).filter p = l1.filter p := by
  rw [List.filter_append, List.filter_eq_nil_iff.mpr h, List.append_nil]

theorem formulaOf_names (s : Store) (pid : ℕ) :
    (formulaOf s pid).map Prod.fst
      = (s.product_ingredients.filter (fun fr => fr.product_id = pid)).map
          FormulaRow.ingredient_name := by
  unfold formulaOf
  rw [List.map_map]
  rfl

theorem goodStore_save (s : Store) (product_id : Option ℕ) (name : String)
    (items : List (String × ℚ)) (h : GoodStore s) (hv : valid_items items)
    (hnd : (items.map Prod.fst).Nodup)
    (hpid : ∀ pid0, product_id = some pid0 → pid0 < s.nextProductId) :
    GoodStore (save_product s product_id name items).1 := by
  cases product_id with
  | none =>
    simp only [save_product]
    by_cases hdup : s.products.any (fun p => p.2 = name) = true
    · rw [if_pos hdup]
      exact h
    · rw [if_neg hdup]
      refine ⟨h.qty_lb, h.names_nodup, h.kilos_nonneg, ?_, ?_, ?_, ?_⟩
      · intro fr hfr
        rcases List.mem_append.mp hfr with ho | hn
        · exact h.perc_pos fr ho
        · rw [List.mem_map] at hn
          obtain ⟨it, hit, rfl⟩ := hn
          exact hv.2.2 it hit
      · intro q
        rw [formulaOf_names]
        show (((s.product_ingredients
            ++ items.map (fun it => (⟨s.nextProductId, it.1, it.2⟩ : FormulaRow))).filter
            (fun fr => fr.product_id = q)).map FormulaRow.ingredient_name).Nodup
        by_cases hq : q = s.nextProductId
        · subst hq
          have hold : ∀ fr ∈ s.product_ingredients,
              ¬ ((fr.product_id = s.nextProductId : Bool) = true) := by
            intro fr hfr
            simp only [decide_eq_true_eq]
            exact Nat.ne_of_lt (h.frid_lt fr hfr)
          rw [filter_append_left_nil _ _ _ hold]
          have hall : ∀ fr ∈ items.map
              (fun it => (⟨s.nextProductId, it.1, it.2⟩ : FormulaRow)),
              ((fr.product_id = s.nextProductId : Bool) = true) := by
            intro fr hfr
            rw [List.mem_map] at hfr
            obtain ⟨it, hit, rfl⟩ := hfr
            simp
          rw [List.filter_eq_self.mpr hall, List.map_map]
          exact hnd
        · have hnew : ∀ fr ∈ items.map
              (fun it => (⟨s.nextProductId, it.1, it.2⟩ : FormulaRow)),
              ¬ ((fr.product_id = q : Bool) = true) := by
            intro fr hfr
            rw [List.mem_map] at hfr
            obtain ⟨it, hit, rfl⟩ := hfr
            simp only [decide_eq_true_eq]
            exact fun hc => hq hc.symm
          rw [filter_append_right_nil _ _ _ hnew, ← formulaOf_names]
          exact h.formula_nodup q
      · intro fr hfr
        show fr.product_id < s.nextProductId + 1
        rcases List.mem_append.mp hfr with ho | hn
        · exact Nat.lt_succ_of_lt (h.frid_lt fr ho)
        · rw [List.mem_map] at hn
          obtain ⟨it, hit, rfl⟩ := hn
          exact Nat.lt_succ_self _
      · intro p hp
        show p.1 < s.nextProductId + 1
        rcases List.mem_append.mp hp with ho | hn
        · exact Nat.lt_succ_of_lt (h.prodid_lt p ho)
        · have hp2 := List.mem_singleton.mp hn
          subst hp2
          exact Nat.lt_succ_self _
  | some pid0 =>
    have hpid0 : pid0 < s.nextProductId := hpid pid0 rfl
    simp only [save_product]
    refine ⟨h.qty_lb, h.names_nodup, h.kilos_nonneg, ?_, ?_, ?_, ?_⟩
    · intro fr hfr
      rcases List.mem_append.mp hfr with ho | hn
      · exact h.perc_pos fr (List.mem_of_mem_filter ho)
      · rw [List.mem_map] at hn
        obtain ⟨it, hit, rfl⟩ := hn
        exact hv.2.2 it hit
    · intro q
      rw [formulaOf_names]
      show (((s.product_ingredients.filter (fun fr => ¬ (fr.product_id = pid0))
          ++ items.map (fun it => (⟨pid0, it.1, it.2⟩ : FormulaRow))).filter
          (fun fr => fr.product_id = q)).map FormulaRow.ingredient_name).Nodup
      by_cases hq : q = pid0
      · rw [hq]
        have hold : ∀ fr ∈ s.product_ingredients.filter
            (fun fr => ¬ (fr.product_id = pid0)),
            ¬ ((fr.product_id = pid0 : Bool) = true) := by
          intro fr hfr
          rw [List.mem_filter] at hfr
          have h2 := hfr.2
          simp only [decide_eq_true_eq] at h2 ⊢
          exact h2
        rw [filter_append_left_nil _ _ _ hold]
        have hall : ∀ fr ∈ items.map (fun it => (⟨pid0, it.1, it.2⟩ : FormulaRow)),
            ((fr.product_id = pid0 : Bool) = true) := by
          intro fr hfr
          rw [List.mem_map] at hfr
          obtain ⟨it, hit, rfl⟩ := hfr
          simp
        rw [List.filter_eq_self.mpr hall, List.map_map]
        exact hnd
      · have hnew : ∀ fr ∈ items.map (fun it => (⟨pid0, it.1, it.2⟩ : FormulaRow)),
            ¬ ((fr.product_id = q : Bool) = true) := by
          intro fr hfr
          rw [List.mem_map] at hfr
          obtain ⟨it, hit, rfl⟩ := hfr
          simp only [decide_eq_true_eq]
          exact fun hc => hq hc.symm
        rw [filter_append_right_nil _ _ _ hnew]
        have hbase : ((s.product_ingredients.filter
            (fun fr => fr.product_id = q)).map FormulaRow.ingredient_name).Nodup := by
          rw [← formulaOf_names]
          exact h.formula_nodup q
        exact hbase.sublist (((List.filter_sublist _).filter _).map _)
    · intro fr hfr
      show fr.product_id < s.nextProductId
      rcases List.mem_append.mp hfr with ho | hn
      · exact h.frid_lt fr (List.mem_of_mem_filter ho)
      · rw [List.mem_map] at hn
        obtain ⟨it, hit, rfl⟩ := hn
        exact hpid0
    · intro p hp
      rw [List.mem_map] at hp
      obtain ⟨p0, hp0, rfl⟩ := hp
      by_cases hc : p0.1 = pid0
      · rw [if_pos hc]
        show pid0 < s.nextProductId
        exact hpid0
      · rw [if_neg hc]
        exact h.prodid_lt p0 hp0

theorem goodStore_deleteProduct (s : Store) (pid : ℕ) (h : GoodStore s) :
    GoodStore (delete_product s pid) := by
  unfold delete_product
  refine ⟨h.qty_lb, h.names_nodup, h.kilos_nonneg, ?_, ?_, ?_, ?_⟩
  · intro fr hfr
    exact h.perc_pos fr (List.mem_of_mem_filter hfr)
  · intro q
    rw [formulaOf_names]
    show (((s.product_ingredients.filter (fun fr => ¬ (fr.product_id = pid))).filter
        (fun fr => fr.product_id = q)).map FormulaRow.ingredient_name).Nodup
    have hbase : ((s.product_ingredients.filter
        (fun fr => fr.product_id = q)).map FormulaRow.ingredient_name).Nodup := by
      rw [← formulaOf_names]
      exact h.formula_nodup q
    exact hbase.sublist (((List.filter_sublist _).filter _).map _)
  · intro fr hfr
    exact h.frid_lt fr (List.mem_of_mem_filter hfr)
  · intro p hp
    exact h.prodid_lt p (List.mem_of_mem_filter hp)

theorem goodStore_confirm (s : Store) (pid : ℕ) (pname : String) (kilos : ℚ)
    (t b : String) (h : GoodStore s) (hk : 0 ≤ kilos) :
    GoodStore (confirm_production s pid pname kilos t b).1 := by
  by_cases hsh : shortagesOf s (formulaOf s pid) kilos = []
  case neg =>
    simp only [confirm_production]
    rw [if_neg hsh]
    exact h
  case pos =>
  simp only [confirm_production]
  rw [if_pos hsh]
  have hsuff : ∀ p ∈ formulaOf s pid,
      requiredKg kilos p.2 ≤ availableQty s p.1 + eps := by
    have hsh2 := hsh
    unfold shortagesOf at hsh2
    rw [List.filterMap_eq_nil_iff] at hsh2
    intro p hp
    have hf := hsh2 p hp
    by_cases hc : insufficientCheck (availableQty s p.1) (requiredKg kilos p.2)
    · simp only [hc, if_true] at hf
      cases hf
    · unfold insufficientCheck at hc
      simp only [decide_eq_true_eq] at hc
      exact le_of_not_lt hc
  refine ⟨?_, ?_, ?_, h.perc_pos, h.formula_nodup, h.frid_lt, h.prodid_lt⟩
  · intro r' hr'
    have hr'2 : r' ∈ debitAll s.ingredients (formulaOf s pid) kilos := hr'
    rw [debitAll_eq_map, List.mem_map] at hr'2
    obtain ⟨r, hr, rfl⟩ := hr'2
    show -eps ≤ r.qty_kg - chargeFor (formulaOf s pid) kilos r.name
    have hlb := h.qty_lb r hr
    rcases filter_name_eq_nil_or_single (formulaOf s pid) (h.formula_nodup pid) r.name
      with hnil | ⟨p, hp, hpn, hfil⟩
    · rw [chargeFor_of_filter_nil _ _ _ hnil]
      linarith
    · rw [chargeFor_of_filter_single _ _ _ _ hfil]
      have hbound := hsuff p hp
      have havail : availableQty s p.1 = r.qty_kg := by
        show availQ s.ingredients p.1 = r.qty_kg
        rw [hpn]
        exact availQ_of_mem s.ingredients r h.names_nodup hr
      rw [havail] at hbound
      linarith
  · show ((debitAll s.ingredients (formulaOf s pid) kilos).map Ingredient.name).Nodup
    rw [debitAll_names]
    exact h.names_nodup
  · intro p hp
    rcases List.mem_append.mp hp with ho | hn
    · exact h.kilos_nonneg p ho
    · have hp2 := List.mem_singleton.mp hn
      subst hp2
      exact hk

theorem goodStore_deleteProduction (s : Store) (prod_id : ℕ) (h : GoodStore s) :
    GoodStore (delete_production s prod_id).1 := by
  unfold delete_production
  cases hfind : s.productions.find? (fun p => p.id = prod_id) with
  | none => exact h
  | some r0 =>
    have hr0 : r0 ∈ s.productions := List.mem_of_find?_eq_some hfind
    have hkil : 0 ≤ r0.kilos_produced := h.kilos_nonneg r0 hr0
    have hperc : ∀ p ∈ formulaOf s r0.product_id, 0 ≤ p.2 :=
      fun p hp => (formulaOf_perc_pos s h.perc_pos r0.product_id p hp).le
    refine ⟨?_, ?_, ?_, h.perc_pos, h.formula_nodup, h.frid_lt, h.prodid_lt⟩
    · intro r' hr'
      have hr'2 : r' ∈ creditAll s.ingredients (formulaOf s r0.product_id)
          r0.kilos_produced := hr'
      rw [creditAll_eq_map, List.mem_map] at hr'2
      obtain ⟨r, hr, rfl⟩ := hr'2
      show -eps ≤ r.qty_kg
        + chargeFor (formulaOf s r0.product_id) r0.kilos_produced r.name
      have hlb := h.qty_lb r hr
      have hch := chargeFor_nonneg (formulaOf s r0.product_id) r0.kilos_produced
        r.name hkil hperc
      linarith
    · show ((creditAll s.ingredients (formulaOf s r0.product_id)
        r0.kilos_produced).map Ingredient.name).Nodup
      rw [creditAll_names]
      exact h.names_nodup
    · intro p hp
      exact h.kilos_nonneg p (List.mem_of_mem_filter hp)

theorem reachableSafe_good (s : Store) (h : ReachableSafe s) : GoodStore s := by
  induction h with
  | init => exact goodStore_empty
  | add s name qty supplier _ hq ih => exact goodStore_add s name qty supplier ih hq
  | restock s name amt _ hamt ih => exact goodStore_restock s name amt ih hamt
  | deleteIng s name _ ih => exact goodStore_deleteIng s name ih
  | save s product_id name items _ hv hnd hpid ih =>
      exact goodStore_save s product_id name items ih hv hnd hpid
  | deleteProd s pid _ ih => exact goodStore_deleteProduct s pid ih
  | confirm s pid pname kilos t b _ hk ih =>
      exact goodStore_confirm s pid pname kilos t b ih hk
  | deleteProduction s prod_id _ ih => exact goodStore_deleteProduction s prod_id ih

/-- C4 amended: through the public workflow restricted to non-negative
production quantities and duplicate-free formulas (`ReachableSafe`), no
ingredient's quantity ever drops below `-1e-9`: the sufficiency tolerance
allows a dip of at most `eps` below zero, so exact non-negativity does not
hold, and without these restrictions the bound fails altogether. -/
theorem workflow_stock_lower_bound (s : Store) (h : ReachableSafe s) :
    ∀ r ∈ s.ingredients, -eps ≤ r.qty_kg :=
  (reachableSafe_good s h).qty_lb

/-- C4 counterexample: a state reachable through the unrestricted public
workflow (non-negative adds, a validated product save, one confirmed
production) in which ingredient "A" stands at -10 kg. -/
theorem workflow_negative_stock_counterexample :
    Reachable dupBadStore ∧ ∃ r ∈ dupBadStore.ingredients, r.qty_kg < 0 := by
  constructor
  · exact Reachable.confirm dupStep2 1 "P" 10 "" ""
      (Reachable.save dupStep1 none "P" [("A", 100), ("A", 100)]
        (Reachable.add emptyStore "A" 10 "" Reachable.init (by norm_num))
        ⟨by simp, by norm_num,
          by
            intro p hp
            simp only [List.mem_cons, List.not_mem_nil, or_false] at hp
            rcases hp with rfl | rfl <;> norm_num⟩)
  · have h : dupBadStore.ingredients = [⟨"A", -10, ""⟩] := by
      norm_num [dupBadStore, dupStep2, dupStep1, confirm_production, save_product,
        add_ingredient, emptyStore, shortagesOf, formulaOf, availableQty, availQ,
        insufficientCheck, requiredKg, eps, debitAll, debit, List.find?,
        List.filterMap, List.filter, List.foldl]
    rw [h]
    refine ⟨⟨"A", -10, ""⟩, by simp, by norm_num⟩

/-- Witness for the amended C4: the lower bound holds for the Flour row
(100 - 75 = 25 kg) of a concrete state reached by add, save, confirm. -/
theorem workflow_stock_lower_bound_witness :
    -eps ≤ (⟨"Flour", 25, ""⟩ : Ingredient).qty_kg :=
  workflow_stock_lower_bound safeStore
    (ReachableSafe.confirm safeStep2 1 "Bread" 150 "" ""
      (ReachableSafe.save safeStep1 none "Bread" [("Flour", 50)]
        (ReachableSafe.add emptyStore "Flour" 100 "" ReachableSafe.init
          (by norm_num))
        ⟨by simp, by norm_num,
          by
            intro p hp
            simp only [List.mem_singleton] at hp
            subst hp
            norm_num⟩
        (by simp)
        (by intro pid0 hc; cases hc))
      (by norm_num))
    ⟨"Flour", 25, ""⟩
    (by norm_num [safeStore, safeStep2, safeStep1, confirm_production, save_product,
      add_ingredient, emptyStore, shortagesOf, formulaOf, availableQty, availQ,
      insufficientCheck, requiredKg, eps, debitAll, debit, List.find?,
      List.filterMap, List.filter, List.foldl])

